import Mathlib

/-!
Verification of the task-list store of `src/todo_app_minimal.jsx`.

The component keeps four pieces of React state: `tasks` (the task array),
`input` (the add-box text), `editingId` (the id of the task currently being
edited, or null) and `editingText` (the edit-box text).  The handlers
`addTask`, `deleteTask`, `startEdit`, `saveEdit` and the clear button's
`onClick` are pure state transformations once the `setXxx` calls are read as
functional updates; they are embedded below as functions on `AppState`.

Strings are Lean `String`s; JavaScript's `String.prototype.trim` is embedded
as `jsTrim` over the ECMAScript whitespace set; `JSON.stringify`/`JSON.parse`
on the task array are embedded as `serializeTasks`/`deserializeTasks` over the
grammar the app actually stores (arrays of flat objects with string values).
-/

namespace TodoApp

/-- A task record as created by `addTask`:
`{ id: makeId(), text, created_at: new Date().toISOString() }`. -/
structure Task where
  id : String
  text : String
  created_at : String
deriving DecidableEq, Repr

/-- The component's state: the `useState` cells `tasks`, `input`,
`editingId` (JS `null` is `none`) and `editingText`. -/
structure AppState where
  tasks : List Task
  input : String
  editingId : Option String
  editingText : String
deriving DecidableEq, Repr

/-- `useState([])`, `useState('')`, `useState(null)`, `useState('')`. -/
def initialState : AppState := ⟨[], "", none, ""⟩

/-- The ECMAScript `WhiteSpace` / `LineTerminator` characters that
`String.prototype.trim` strips (the BMP set: TAB, LF, VT, FF, CR, SP,
NBSP, LS, PS, ZWNBSP; general `Space_Separator` code points beyond NBSP
are omitted as they cannot be produced by this app's inputs). -/
def jsWhitespace (c : Char) : Bool :=
  c = ' ' || c = '\t' || c = '\n' || c = '\x0b' || c = '\x0c' || c = '\r' ||
  c = '\xa0' || c = (Char.ofNat 0x2028) || c = (Char.ofNat 0x2029) ||
  c = (Char.ofNat 0xfeff)

/-- JavaScript `s.trim()`: drop leading and trailing whitespace. -/
def jsTrim (s : String) : String :=
  String.mk (((s.data.dropWhile jsWhitespace).reverse.dropWhile jsWhitespace).reverse)

/-- Base-36 digit as used by `Number.prototype.toString(36)`:
`0`-`9` then lowercase `a`-`z`. -/
def b36digit (d : Nat) : Char :=
  if d < 10 then Char.ofNat (48 + d) else Char.ofNat (87 + d)

/-- Digits of `n` in base 36, most significant first, prepended to `acc`;
`fuel` bounds the recursion (`n + 1` always suffices). -/
def natToB36Aux : Nat → Nat → List Char → List Char
  | 0, n, acc => b36digit (n % 36) :: acc
  | fuel + 1, n, acc =>
    if n < 36 then b36digit n :: acc
    else natToB36Aux fuel (n / 36) (b36digit (n % 36) :: acc)

/-- `n.toString(36)` for a natural number `n`. -/
def natToB36 (n : Nat) : String := String.mk (natToB36Aux n n [])

/-- `makeId()` = `Date.now().toString(36) + Math.random().toString(36).slice(2, 7)`.
`nowMs` is the environment-supplied `Date.now()` value and `rnd` the
environment-supplied random suffix `Math.random().toString(36).slice(2, 7)`. -/
def makeId (nowMs : Nat) (rnd : String) : String := natToB36 nowMs ++ rnd

/-- `addTask`: trim the input; if empty, return without touching state;
otherwise append the new task and clear the input box
(`setTasks(prev => [...prev, newTask]); setInput('')`). -/
def addTask (freshId nowIso : String) (st : AppState) : AppState :=
  let text := jsTrim st.input
  if text = "" then st
  else
    { st with tasks := st.tasks ++ [{ id := freshId, text := text, created_at := nowIso }],
              input := "" }

/-- Modelled from the spec: the reframed store's `add` returns the created
Task, or none when the trimmed input is empty (§4.1).  The JSX handler
itself returns `undefined`; the returned task is the handler's `newTask`. -/
def addRet (freshId nowIso : String) (st : AppState) : Option Task :=
  let text := jsTrim st.input
  if text = "" then none
  else some { id := freshId, text := text, created_at := nowIso }

/-- `deleteTask(id)`: `setTasks(prev => prev.filter(t => t.id !== id))`.
Nothing else is touched; in particular `editingId` is left as is. -/
def deleteTask (id : String) (st : AppState) : AppState :=
  { st with tasks := st.tasks.filter (fun t => t.id != id) }

/-- Modelled from the spec: the reframed store's `delete` returns whether a
task was removed (§4.1).  The JSX handler returns `undefined`; a task is
removed exactly when one with the given id is present. -/
def deleteFound (id : String) (st : AppState) : Bool :=
  st.tasks.any (fun t => t.id == id)

/-- `startEdit(task)`: `setEditingId(task.id); setEditingText(task.text)`. -/
def startEdit (t : Task) (st : AppState) : AppState :=
  { st with editingId := some t.id, editingText := t.text }

/-- `saveEdit(id)`: trim `editingText`; if empty, only clear the editing
cells (revert, not delete); otherwise replace the text of every task whose
id matches and clear the editing cells. -/
def saveEdit (id : String) (st : AppState) : AppState :=
  let text := jsTrim st.editingText
  if text = "" then { st with editingId := none, editingText := "" }
  else
    { st with
        tasks := st.tasks.map (fun t => if t.id == id then { t with text := text } else t),
        editingId := none, editingText := "" }

/-- Modelled from the spec: the reframed store's `commitEdit` returns whether
a task with the id existed (§4.1).  The JSX handler returns `undefined`. -/
def saveEditFound (id : String) (st : AppState) : Bool :=
  st.tasks.any (fun t => t.id == id)

/-- Whether `saveEdit` triggers a persistence write.  The persist effect has
dependency `[tasks]` and every updater in this file builds a fresh array, so
`localStorage.setItem` runs exactly when `setTasks` was called: for
`saveEdit`, exactly when the trimmed edit text is non-empty — whether or not
the stored text differs from the old one. -/
def saveEditWrites (st : AppState) : Bool :=
  jsTrim st.editingText != ""

/-- The clear button: `onClick={() => { setTasks([]); }}`.  Only the task
array is reset; `editingId` and `editingText` are left as they are. -/
def clearTasks (st : AppState) : AppState :=
  { st with tasks := [] }

/-- Environment of one user-driven `addTask` call: the `Date.now()` value and
random suffix consumed by `makeId`, the `toISOString()` timestamp, and the
text typed into the input box. -/
structure AddEnv where
  nowMs : Nat
  rnd : String
  iso : String
  typed : String
deriving DecidableEq, Repr

/-- One session step: the user types `e.typed` and presses Add. -/
def addStep (e : AddEnv) (st : AppState) : AppState :=
  addTask (makeId e.nowMs e.rnd) e.iso { st with input := e.typed }

/-- A session: a sequence of add interactions starting from the empty store. -/
def runSession (env : List AddEnv) : AppState :=
  env.foldl (fun st e => addStep e st) initialState

/-- The task that the session step for `e` appends, if any. -/
def envTask (e : AddEnv) : Option Task :=
  if jsTrim e.typed = "" then none
  else some { id := makeId e.nowMs e.rnd, text := jsTrim e.typed, created_at := e.iso }

/-! ### The persistence layer

`JSON.stringify(tasks)` and `JSON.parse(raw)` are host functions; they are
embedded for the data that actually flows through this app: arrays of flat
objects whose values are strings.  The serializer follows ECMAScript
`QuoteJSONString` (escapes `"` and `\`, named escapes for BS FF LF CR TAB,
`\u00XX` for the remaining control characters, everything else verbatim, no
whitespace, object keys in insertion order `id`, `text`, `created_at`).  The
deserializer is a recursive-descent reader of that grammar which, like
`JSON.parse`, also accepts `\/`, uppercase hex and arbitrary keys, and
rejects unescaped control characters; parsed objects are kept as raw
key-value lists (`Jobj`), as `JSON.parse` builds plain objects with exactly
the properties present — no validation against the task shape. -/

/-- A parsed flat JSON object: its properties in textual order. -/
abbrev Jobj := List (String × String)

/-- Hex digit (lowercase, as `QuoteJSONString` emits). -/
def toHex (n : Nat) : Char :=
  if n < 10 then Char.ofNat (48 + n) else Char.ofNat (87 + n)

/-- JSON escape of one character, per ECMAScript `QuoteJSONString`. -/
def escapeChar (c : Char) : List Char :=
  if c = '"' then ['\\', '"']
  else if c = '\\' then ['\\', '\\']
  else if c = '\x08' then ['\\', 'b']
  else if c = '\x0c' then ['\\', 'f']
  else if c = '\n' then ['\\', 'n']
  else if c = '\r' then ['\\', 'r']
  else if c = '\t' then ['\\', 't']
  else if c.toNat < 32 then ['\\', 'u', '0', '0', toHex (c.toNat / 16), toHex (c.toNat % 16)]
  else [c]

/-- JSON escape of a character list. -/
def escapeList : List Char → List Char
  | [] => []
  | c :: cs => escapeChar c ++ escapeList cs

/-- A JSON string literal: quote, escaped contents, quote. -/
def quoteStr (s : String) : List Char :=
  '"' :: (escapeList s.data ++ ['"'])

/-- The members of one serialized task, in the handler's insertion order. -/
def taskFields (t : Task) : List Char :=
  quoteStr "id" ++ ':' :: quoteStr t.id ++ ',' ::
  quoteStr "text" ++ ':' :: quoteStr t.text ++ ',' ::
  quoteStr "created_at" ++ ':' :: quoteStr t.created_at

/-- One serialized task object. -/
def serializeTask (t : Task) : List Char :=
  '\x7b' :: (taskFields t ++ ['\x7d'])

/-- Comma-separated serialized tasks. -/
def serializeElems : List Task → List Char
  | [] => []
  | [t] => serializeTask t
  | t :: ts => serializeTask t ++ ',' :: serializeElems ts

/-- `JSON.stringify(tasks)`. -/
def serializeTasks (l : List Task) : String :=
  String.mk ('[' :: (serializeElems l ++ [']']))

/-- Value of a hex digit character (JSON accepts both cases). -/
def unhex (c : Char) : Option Nat :=
  if 48 ≤ c.toNat ∧ c.toNat ≤ 57 then some (c.toNat - 48)
  else if 97 ≤ c.toNat ∧ c.toNat ≤ 102 then some (c.toNat - 87)
  else if 65 ≤ c.toNat ∧ c.toNat ≤ 70 then some (c.toNat - 55)
  else none

/-- The character named by a one-letter JSON escape. -/
def unescChar (e : Char) : Option Char :=
  if e = '"' then some '"'
  else if e = '\\' then some '\\'
  else if e = '/' then some '/'
  else if e = 'b' then some '\x08'
  else if e = 'f' then some '\x0c'
  else if e = 'n' then some '\n'
  else if e = 'r' then some '\r'
  else if e = 't' then some '\t'
  else none

/-- Read a JSON string body up to and including the closing quote; returns
the decoded characters and the rest of the input.  Unescaped control
characters and bad escapes are rejected, as in `JSON.parse`. -/
def parseStrBody : List Char → Option (List Char × List Char)
  | [] => none
  | c :: cs =>
    if c = '"' then some ([], cs)
    else if c = '\\' then
      match cs with
      | [] => none
      | e :: cs2 =>
        if e = 'u' then
          match cs2 with
          | h1 :: h2 :: h3 :: h4 :: cs3 =>
            match unhex h1, unhex h2, unhex h3, unhex h4 with
            | some a, some b, some c3, some d =>
              (parseStrBody cs3).map
                (fun p => (Char.ofNat (((a * 16 + b) * 16 + c3) * 16 + d) :: p.1, p.2))
            | _, _, _, _ => none
          | _ => none
        else
          match unescChar e with
          | some ch => (parseStrBody cs2).map (fun p => (ch :: p.1, p.2))
          | none => none
    else if c.toNat < 32 then none
    else (parseStrBody cs).map (fun p => (c :: p.1, p.2))

/-- Read a JSON string literal (opening quote included). -/
def parseStringLit : List Char → Option (String × List Char)
  | [] => none
  | c :: cs =>
    if c = '"' then (parseStrBody cs).map (fun p => (String.mk p.1, p.2))
    else none

/-- Read one `"key":"value"` member. -/
def parseMember (cs : List Char) : Option ((String × String) × List Char) :=
  match parseStringLit cs with
  | none => none
  | some (k, rest) =>
    match rest with
    | ':' :: rest2 =>
      match parseStringLit rest2 with
      | none => none
      | some (v, rest3) => some ((k, v), rest3)
    | _ => none

/-- Read the members of an object after its `{`, up to and including the
closing `}`; at least one member is expected.  `fuel` bounds the number of
members. -/
def parseMembers : Nat → List Char → Option (Jobj × List Char)
  | 0, _ => none
  | fuel + 1, cs =>
    match parseMember cs with
    | none => none
    | some (kv, rest) =>
      match rest with
      | [] => none
      | c :: rest2 =>
        if c = ',' then (parseMembers fuel rest2).map (fun p => (kv :: p.1, p.2))
        else if c = '\x7d' then some ([kv], rest2)
        else none

/-- Read one flat object. -/
def parseObj (fuel : Nat) (cs : List Char) : Option (Jobj × List Char) :=
  match cs with
  | [] => none
  | c :: rest =>
    if c = '\x7b' then
      match rest with
      | [] => none
      | c2 :: rest2 => if c2 = '\x7d' then some ([], rest2) else parseMembers fuel (c2 :: rest2)
    else none

/-- Read the elements of a non-empty array after its `[`, up to and including
the closing `]`.  `fuel` bounds the number of elements. -/
def parseElems : Nat → List Char → Option (List Jobj × List Char)
  | 0, _ => none
  | fuel + 1, cs =>
    match parseObj fuel cs with
    | none => none
    | some (o, rest) =>
      match rest with
      | [] => none
      | c :: rest2 =>
        if c = ',' then (parseElems fuel rest2).map (fun p => (o :: p.1, p.2))
        else if c = ']' then some ([o], rest2)
        else none

/-- Read an array of flat objects. -/
def parseArr (fuel : Nat) (cs : List Char) : Option (List Jobj × List Char) :=
  match cs with
  | [] => none
  | c :: rest =>
    if c = '[' then
      match rest with
      | [] => none
      | c2 :: rest2 => if c2 = ']' then some ([], rest2) else parseElems fuel (c2 :: rest2)
    else none

/-- `JSON.parse(raw)` on a stored task array: the whole input must be one
array of flat string-valued objects; anything else is a parse failure
(`JSON.parse` throwing, or the stored value not having the persisted shape). -/
def deserializeTasks (s : String) : Option (List Jobj) :=
  match parseArr (s.length + 1) s.data with
  | some (objs, []) => some objs
  | _ => none

/-- The key-value record one task serializes to. -/
def taskPairs (t : Task) : Jobj :=
  [("id", t.id), ("text", t.text), ("created_at", t.created_at)]

/-- The load effect, run once on mount:
`const raw = localStorage.getItem(STORAGE_KEY); if (raw) setTasks(JSON.parse(raw))`
inside `try/catch`.  `raw = none` is `getItem` returning null; the empty
string is falsy, so it is not parsed; a parse failure is caught and logged,
leaving `tasks` at its initial `[]`.  Whatever parses is installed verbatim. -/
def loadTasks (raw : Option String) : List Jobj :=
  match raw with
  | none => []
  | some s =>
    if s = "" then []
    else
      match deserializeTasks s with
      | some objs => objs
      | none => []

/-! ### Round trip of the persistence format -/

theorem unhex_toHex (d : Nat) (h : d < 16) : unhex (toHex d) = some d := by
  interval_cases d <;> decide

theorem parseStrBody_escape (c : Char) (tail : List Char) :
    parseStrBody (escapeChar c ++ tail) = (parseStrBody tail).map (fun p => (c :: p.1, p.2)) := by
  by_cases h1 : c = '"'
  · subst h1; rw [escapeChar, if_pos rfl, List.cons_append, List.cons_append,
      List.nil_append, parseStrBody.eq_def]
    simp [unescChar]
  by_cases h2 : c = '\\'
  · subst h2; rw [escapeChar]; rw [if_neg h1, if_pos rfl, List.cons_append, List.cons_append,
      List.nil_append, parseStrBody.eq_def]
    simp [unescChar]
  by_cases h3 : c = '\x08'
  · subst h3; rw [escapeChar]; rw [if_neg h1, if_neg h2, if_pos rfl, List.cons_append,
      List.cons_append, List.nil_append, parseStrBody.eq_def]
    simp [unescChar]
  by_cases h4 : c = '\x0c'
  · subst h4; rw [escapeChar]; rw [if_neg h1, if_neg h2, if_neg h3, if_pos rfl,
      List.cons_append, List.cons_append, List.nil_append, parseStrBody.eq_def]
    simp [unescChar]
  by_cases h5 : c = '\n'
  · subst h5; rw [escapeChar]; rw [if_neg h1, if_neg h2, if_neg h3, if_neg h4, if_pos rfl,
      List.cons_append, List.cons_append, List.nil_append, parseStrBody.eq_def]
    simp [unescChar]
  by_cases h6 : c = '\r'
  · subst h6; rw [escapeChar]; rw [if_neg h1, if_neg h2, if_neg h3, if_neg h4, if_neg h5,
      if_pos rfl, List.cons_append, List.cons_append, List.nil_append, parseStrBody.eq_def]
    simp [unescChar]
  by_cases h7 : c = '\t'
  · subst h7; rw [escapeChar]; rw [if_neg h1, if_neg h2, if_neg h3, if_neg h4, if_neg h5,
      if_neg h6, if_pos rfl, List.cons_append, List.cons_append, List.nil_append,
      parseStrBody.eq_def]
    simp [unescChar]
  by_cases h8 : c.toNat < 32
  · have hd : c.toNat / 16 < 16 := by omega
    have hm : c.toNat % 16 < 16 := by omega
    have h0 : unhex '0' = some 0 := by decide
    have harith : c.toNat / 16 * 16 + c.toNat % 16 = c.toNat := by omega
    rw [escapeChar]; rw [if_neg h1, if_neg h2, if_neg h3, if_neg h4, if_neg h5, if_neg h6,
      if_neg h7, if_pos h8]
    rw [List.cons_append, List.cons_append, List.cons_append, List.cons_append,
      List.cons_append, List.cons_append, List.nil_append, parseStrBody.eq_def]
    simp [h0, unhex_toHex _ hd, unhex_toHex _ hm, harith, Char.ofNat_toNat]
  · rw [escapeChar]; rw [if_neg h1, if_neg h2, if_neg h3, if_neg h4, if_neg h5, if_neg h6,
      if_neg h7, if_neg h8, List.cons_append, List.nil_append, parseStrBody.eq_def]
    simp [h1, h2, h8]

theorem parseStrBody_escapeList (s : List Char) (tail : List Char) :
    parseStrBody (escapeList s ++ '"' :: tail) = some (s, tail) := by
  induction s with
  | nil =>
    rw [escapeList, List.nil_append, parseStrBody.eq_def]
    simp
  | cons c cs ih =>
    rw [escapeList, List.append_assoc, parseStrBody_escape, ih]
    rfl

theorem parseStringLit_quote (s : String) (tail : List Char) :
    parseStringLit (quoteStr s ++ tail) = some (s, tail) := by
  have h : quoteStr s ++ tail = '"' :: (escapeList s.data ++ '"' :: tail) := by
    simp [quoteStr]
  rw [h, parseStringLit]
  simp [parseStrBody_escapeList]

theorem parseMember_quote (k v : String) (tail : List Char) :
    parseMember (quoteStr k ++ ':' :: (quoteStr v ++ tail)) = some ((k, v), tail) := by
  rw [parseMember]
  have h1 : quoteStr k ++ ':' :: (quoteStr v ++ tail) = quoteStr k ++ (':' :: (quoteStr v ++ tail)) := rfl
  rw [h1, parseStringLit_quote]
  simp [parseStringLit_quote]

theorem parseMembers_task (g : Nat) (t : Task) (tail : List Char) :
    parseMembers (g + 1 + 1 + 1) (taskFields t ++ '\x7d' :: tail) = some (taskPairs t, tail) := by
  have hsh : taskFields t ++ '\x7d' :: tail
      = quoteStr "id" ++ ':' :: (quoteStr t.id ++ (',' ::
        (quoteStr "text" ++ ':' :: (quoteStr t.text ++ (',' ::
        (quoteStr "created_at" ++ ':' :: (quoteStr t.created_at ++ ('\x7d' :: tail)))))))) := by
    simp [taskFields]
  rw [hsh, parseMembers, parseMember_quote]
  simp only [reduceIte, Option.map_eq_map]
  rw [parseMembers, parseMember_quote]
  simp only [reduceIte, Option.map_eq_map]
  rw [parseMembers, parseMember_quote]
  simp [taskPairs]


theorem taskFields_shape (t : Task) (tail : List Char) :
    taskFields t ++ '\x7d' :: tail
      = '"' :: ('i' :: ('d' :: ('"' :: (':' :: (quoteStr t.id ++ (',' ::
        (quoteStr "text" ++ ':' :: (quoteStr t.text ++ (',' ::
        (quoteStr "created_at" ++ ':' :: (quoteStr t.created_at ++ ('\x7d' :: tail)))))))))))) := by
  have hid : quoteStr "id" = ['"', 'i', 'd', '"'] := by decide
  simp [taskFields, hid]

theorem parseObj_task (g : Nat) (t : Task) (tail : List Char) :
    parseObj (g + 1 + 1 + 1) (serializeTask t ++ tail) = some (taskPairs t, tail) := by
  have hsh : serializeTask t ++ tail = '\x7b' :: (taskFields t ++ '\x7d' :: tail) := by
    simp [serializeTask]
  rw [hsh, taskFields_shape, parseObj.eq_def]
  simp only [reduceIte]
  rw [← taskFields_shape, parseMembers_task]
  simp

theorem serializeElems_ge : ∀ l : List Task, l.length ≤ (serializeElems l).length
  | [] => by simp [serializeElems]
  | [t] => by simp [serializeElems, serializeTask]
  | t :: t' :: ts => by
    have ih := serializeElems_ge (t' :: ts)
    simp only [serializeElems, List.length_cons, List.length_append, serializeTask] at *
    omega

theorem parseElems_rt : ∀ (t : Task) (ts : List Task) (fuel : Nat) (tail : List Char),
    ts.length + 1 + 1 + 1 + 1 ≤ fuel →
    parseElems fuel (serializeElems (t :: ts) ++ ']' :: tail)
      = some ((t :: ts).map taskPairs, tail) := by
  intro t ts
  induction ts generalizing t with
  | nil =>
    intro fuel tail hf
    obtain ⟨g, rfl⟩ : ∃ g, fuel = g + 1 + 1 + 1 + 1 := ⟨fuel - 4, by omega⟩
    rw [show serializeElems [t] = serializeTask t from rfl, parseElems, parseObj_task]
    simp
  | cons t' ts ih =>
    intro fuel tail hf
    obtain ⟨g, rfl⟩ : ∃ g, fuel = g + 1 + 1 + 1 + 1 := ⟨fuel - 4, by omega⟩
    have hsh : serializeElems (t :: t' :: ts) ++ ']' :: tail
        = serializeTask t ++ (',' :: (serializeElems (t' :: ts) ++ ']' :: tail)) := by
      simp [serializeElems]
    rw [hsh, parseElems, parseObj_task]
    simp only [reduceIte, Option.map_eq_map]
    rw [ih t' (g + 1 + 1 + 1) tail (by simp at hf ⊢; omega)]
    simp

/-- Claim C7 (confirmed): serializing any task list and deserializing the
result reproduces, in order, one record per task holding exactly its `id`,
`text` and `created_at` — serialize-then-deserialize is the identity on task
lists up to the record representation `taskPairs`. -/
theorem deserialize_serialize (l : List Task) :
    deserializeTasks (serializeTasks l) = some (l.map taskPairs) := by
  cases l with
  | nil => decide
  | cons t ts =>
    rw [deserializeTasks]
    have hdata : (serializeTasks (t :: ts)).data = '[' :: (serializeElems (t :: ts) ++ [']']) := rfl
    have hlen : (serializeTasks (t :: ts)).length = (serializeElems (t :: ts)).length + 2 := by
      show ('[' :: (serializeElems (t :: ts) ++ [']'])).length = _
      simp
    have hge := serializeElems_ge (t :: ts)
    obtain ⟨cs, hcs⟩ : ∃ cs, serializeElems (t :: ts) = '\x7b' :: cs := by
      cases ts with
      | nil => exact ⟨_, rfl⟩
      | cons t' ts => exact ⟨_, rfl⟩
    have hexp : serializeElems (t :: ts) ++ [']'] = '\x7b' :: (cs ++ [']']) := by
      rw [hcs]; rfl
    rw [hdata, parseArr.eq_def, hexp]
    simp only [reduceIte]
    rw [← hexp]
    have harr : serializeElems (t :: ts) ++ [']'] = serializeElems (t :: ts) ++ ']' :: [] := rfl
    rw [harr, parseElems_rt t ts _ [] (by
      rw [hlen]
      simp only [List.length_cons] at hge
      omega)]
    simp



/-! ### Session and claim theorems -/

/-- Claim C1 (confirmed): `add` first trims its input; when the trimmed text
is empty the state (hence the task list) is unchanged and the reframed return
is none; otherwise exactly one task whose `text` is the trimmed input is
appended at the end, the length grows by one, and that task is returned. -/
theorem addTask_add_spec (freshId nowIso : String) (st : AppState) :
    (jsTrim st.input = "" →
      addTask freshId nowIso st = st ∧ addRet freshId nowIso st = none) ∧
    (jsTrim st.input ≠ "" →
      (addTask freshId nowIso st).tasks
          = st.tasks ++ [{ id := freshId, text := jsTrim st.input, created_at := nowIso }] ∧
      (addTask freshId nowIso st).tasks.length = st.tasks.length + 1 ∧
      addRet freshId nowIso st
          = some { id := freshId, text := jsTrim st.input, created_at := nowIso }) := by
  by_cases h : jsTrim st.input = "" <;> simp [addTask, addRet, h]

/-- Claim C2 (confirmed): `delete` keeps the surviving tasks in their
relative order (the result is a sublist), a task survives exactly when its id
differs, the reframed return is true exactly when some task had the id, and a
second `delete` of the same id returns false and leaves the length as it was
after the first. -/
theorem deleteTask_delete_spec (id : String) (st : AppState) :
    ((deleteTask id st).tasks.Sublist st.tasks) ∧
    (∀ t, t ∈ (deleteTask id st).tasks ↔ t ∈ st.tasks ∧ t.id ≠ id) ∧
    (deleteFound id st = true ↔ ∃ t ∈ st.tasks, t.id = id) ∧
    (deleteFound id (deleteTask id st) = false) ∧
    ((deleteTask id (deleteTask id st)).tasks.length = (deleteTask id st).tasks.length) := by
  refine ⟨List.filter_sublist _, ?_, ?_, ?_, ?_⟩
  · intro t; simp [deleteTask, List.mem_filter, bne_iff_ne]
  · simp [deleteFound, List.any_eq_true, beq_iff_eq]
  · simp [deleteFound, deleteTask, List.any_eq_true, List.mem_filter]
  · simp [deleteTask, List.filter_filter]

/-- Claim C3 (confirmed): `commitEdit` trims the edit text; when the trim is
empty the task list is untouched (cancel, never delete) and the editing
pointer is cleared; when non-empty, position by position the task with the
matching id gets the trimmed text and every other task is unchanged, and the
editing pointer is cleared; the reframed return is true exactly when a task
with the id existed. -/
theorem saveEdit_commitEdit_spec (id : String) (st : AppState) :
    (jsTrim st.editingText = "" →
      (saveEdit id st).tasks = st.tasks ∧ (saveEdit id st).editingId = none) ∧
    (jsTrim st.editingText ≠ "" →
      (∀ i : Nat, ((saveEdit id st).tasks)[i]? = (st.tasks[i]?).map
        (fun t => if t.id = id then { t with text := jsTrim st.editingText } else t)) ∧
      (saveEdit id st).editingId = none) ∧
    (saveEditFound id st = true ↔ ∃ t ∈ st.tasks, t.id = id) := by
  refine ⟨fun h => by simp [saveEdit, h], fun h => ⟨fun i => ?_, by simp [saveEdit, h]⟩, ?_⟩
  · have hfun : (fun t : Task => if t.id == id then { t with text := jsTrim st.editingText } else t)
        = (fun t : Task => if t.id = id then { t with text := jsTrim st.editingText } else t) := by
      funext t
      by_cases ht : t.id = id <;> simp [ht]
    simp [saveEdit, h, List.getElem?_map, hfun]
  · simp [saveEditFound, List.any_eq_true, beq_iff_eq]


theorem foldl_addStep_tasks (env : List AddEnv) :
    ∀ st : AppState, (env.foldl (fun st e => addStep e st) st).tasks
        = st.tasks ++ env.filterMap envTask := by
  induction env with
  | nil => intro st; simp
  | cons e env ih =>
    intro st
    rw [List.foldl_cons, ih, List.filterMap_cons]
    by_cases h : jsTrim e.typed = ""
    · simp [addStep, addTask, envTask, h]
    · simp [addStep, addTask, envTask, h]

theorem runSession_tasks (env : List AddEnv) :
    (runSession env).tasks = env.filterMap envTask := by
  rw [runSession, foldl_addStep_tasks]
  rfl

theorem envTask_ids_sublist (env : List AddEnv) :
    ((env.filterMap envTask).map Task.id).Sublist
      (env.map (fun e => makeId e.nowMs e.rnd)) := by
  induction env with
  | nil => simp
  | cons e env ih =>
    rw [List.filterMap_cons, List.map_cons]
    by_cases h : jsTrim e.typed = ""
    · simp only [envTask, h, if_pos rfl]
      exact ih.cons _
    · simp only [envTask, h, if_neg h, List.map_cons]
      exact ih.cons₂ _

/-- Claim C4 counterexample: clearing while a task is being edited leaves the
editing pointer set — it is not returned to Idle as the claim states. -/
theorem clearTasks_cex :
    (clearTasks { tasks := [{ id := "a", text := "x", created_at := "t" }],
                  input := "", editingId := some "a", editingText := "x" }).editingId
      ≠ none := by decide

/-- Claim C4 (corrected): `clear` always empties the task list, but leaves
the editing pointer (and the other input cells) exactly as they were. -/
theorem clearTasks_amended (st : AppState) :
    (clearTasks st).tasks = [] ∧ (clearTasks st).editingId = st.editingId ∧
    (clearTasks st).editingText = st.editingText ∧ (clearTasks st).input = st.input := by
  simp [clearTasks]

/-- Claim C5 counterexample: from a state editing task `"a"`, deleting `"a"`
removes the task yet the editing pointer still holds `some "a"` — the editing
state machine is not moved to Idle. -/
theorem deleteTask_editing_cex :
    (deleteTask "a" { tasks := [{ id := "a", text := "x", created_at := "t" }],
                      input := "", editingId := some "a", editingText := "x" }).tasks = [] ∧
    (deleteTask "a" { tasks := [{ id := "a", text := "x", created_at := "t" }],
                      input := "", editingId := some "a", editingText := "x" }).editingId
      = some "a" := by decide

/-- Claim C5 (corrected): `delete` never modifies the editing pointer or the
edit buffer, even when the deleted task is the one being edited (the edit
input disappears only because the task is no longer rendered). -/
theorem deleteTask_editing_amended (id : String) (st : AppState) :
    (deleteTask id st).editingId = st.editingId ∧
    (deleteTask id st).editingText = st.editingText := by
  simp [deleteTask]

/-- Claim C6 counterexample: two distinct `add` calls in one session whose
environments give `makeId` the same millisecond and the same random suffix
produce two tasks with the same id, so uniqueness is not guaranteed. -/
theorem makeId_collision_cex :
    ((runSession [⟨0, "aaaaa", "t0", "first"⟩, ⟨0, "aaaaa", "t1", "second"⟩]).tasks.map Task.id)
        = ["0aaaaa", "0aaaaa"] ∧
    ¬ ((runSession [⟨0, "aaaaa", "t0", "first"⟩,
                    ⟨0, "aaaaa", "t1", "second"⟩]).tasks.map Task.id).Nodup := by
  decide

/-- Claim C6 (corrected): ids in the session's task list are pairwise
distinct provided the `makeId` outputs of the session's add calls are
pairwise distinct; the generator itself does not enforce this. -/
theorem session_ids_nodup (env : List AddEnv)
    (h : (env.map (fun e => makeId e.nowMs e.rnd)).Nodup) :
    ((runSession env).tasks.map Task.id).Nodup := by
  rw [runSession_tasks]
  exact h.sublist (envTask_ids_sublist env)

/-- Witness for C6's amended theorem at a concrete two-call session. -/
theorem session_ids_nodup_witness :
    ((runSession [⟨0, "aaaaa", "t0", "first"⟩,
                  ⟨1, "bbbbb", "t1", "second"⟩]).tasks.map Task.id).Nodup :=
  session_ids_nodup _ (by decide)

/-- Claim C8 (confirmed): on startup with no stored value the list starts
empty, and any raw value whose deserialization fails also yields the empty
list — the failure is swallowed (the embedding is total, mirroring the
`try/catch` that only logs). -/
theorem load_failure_spec :
    loadTasks none = [] ∧
    (∀ s : String, deserializeTasks s = none → loadTasks (some s) = []) := by
  refine ⟨rfl, fun s h => ?_⟩
  by_cases hs : s = "" <;> simp [loadTasks, hs, h]

/-- Claim C10 (confirmed): whatever deserializes is installed verbatim as
the initial list, with no validation: records with empty-after-trim `text`,
records sharing one id, and records missing required fields are all
installed exactly as stored. -/
theorem load_no_validation :
    (∀ (s : String) (objs : List Jobj),
      deserializeTasks s = some objs → loadTasks (some s) = objs) ∧
    loadTasks (some "[\x7b\"id\":\"a\",\"text\":\"  \",\"created_at\":\"t\"\x7d]")
        = [[("id", "a"), ("text", "  "), ("created_at", "t")]] ∧
    loadTasks (some ("[\x7b\"id\":\"a\",\"text\":\"x\",\"created_at\":\"t\"\x7d," ++
                     "\x7b\"id\":\"a\",\"text\":\"y\",\"created_at\":\"u\"\x7d]"))
        = [[("id", "a"), ("text", "x"), ("created_at", "t")],
           [("id", "a"), ("text", "y"), ("created_at", "u")]] ∧
    loadTasks (some "[\x7b\"id\":\"a\"\x7d]") = [[("id", "a")]] := by
  refine ⟨fun s objs h => ?_, by decide, by decide, by decide⟩
  have hs : s ≠ "" := by
    intro hs
    subst hs
    rw [show deserializeTasks "" = none from rfl] at h
    cases h
  simp [loadTasks, hs, h]

/-- Claim C9 counterexample: committing an edit whose trimmed text equals
the task's current text leaves every task unchanged, yet a persistence write
is still triggered — refuting "persists only if the text actually changed". -/
theorem saveEdit_writes_cex :
    (saveEdit "a" { tasks := [{ id := "a", text := "x", created_at := "t" }],
                    input := "", editingId := some "a", editingText := "x" }).tasks
        = [{ id := "a", text := "x", created_at := "t" }] ∧
    saveEditWrites { tasks := [{ id := "a", text := "x", created_at := "t" }],
                     input := "", editingId := some "a", editingText := "x" } = true := by
  decide

/-- Claim C9 (corrected): with non-empty trimmed edit text, `commitEdit`
keeps the list's length and order, keeps every task's `id` and `created_at`,
leaves tasks with a different id untouched and gives the matching task the
trimmed text; and it triggers a persistence write whenever the trimmed text
is non-empty, whether or not any text changed. -/
theorem saveEdit_frame_amended (id : String) (st : AppState)
    (h : jsTrim st.editingText ≠ "") :
    (saveEdit id st).tasks.length = st.tasks.length ∧
    (∀ i : Nat, ((saveEdit id st).tasks[i]?).map Task.id = (st.tasks[i]?).map Task.id) ∧
    (∀ i : Nat, ((saveEdit id st).tasks[i]?).map Task.created_at
        = (st.tasks[i]?).map Task.created_at) ∧
    (∀ i : Nat, (st.tasks[i]?).map Task.id ≠ some id →
        (saveEdit id st).tasks[i]? = st.tasks[i]?) ∧
    (∀ i : Nat, (st.tasks[i]?).map Task.id = some id →
        ((saveEdit id st).tasks[i]?).map Task.text = some (jsTrim st.editingText)) ∧
    saveEditWrites st = true := by
  have htasks : (saveEdit id st).tasks
      = st.tasks.map (fun t => if t.id == id then { t with text := jsTrim st.editingText } else t) := by
    simp [saveEdit, h]
  refine ⟨by simp [htasks], fun i => ?_, fun i => ?_, fun i hi => ?_, fun i hi => ?_, ?_⟩
  · rw [htasks, List.getElem?_map]
    cases st.tasks[i]? with
    | none => rfl
    | some t => by_cases ht : t.id = id <;> simp [ht]
  · rw [htasks, List.getElem?_map]
    cases st.tasks[i]? with
    | none => rfl
    | some t => by_cases ht : t.id = id <;> simp [ht]
  · rw [htasks, List.getElem?_map]
    cases hcell : st.tasks[i]? with
    | none => rfl
    | some t =>
      rw [hcell] at hi
      have ht : t.id ≠ id := by simpa using hi
      simp [ht]
  · rw [htasks, List.getElem?_map]
    cases hcell : st.tasks[i]? with
    | none => rw [hcell] at hi; simp at hi
    | some t =>
      rw [hcell] at hi
      have ht : t.id = id := by simpa using hi
      simp [ht]
  · simpa [saveEditWrites] using h

/-- Witness for C9's amended theorem at a concrete two-task state. -/
theorem saveEdit_frame_amended_witness :
    (saveEdit "a" { tasks := [{ id := "a", text := "x", created_at := "t" },
                              { id := "b", text := "y", created_at := "u" }],
                    input := "", editingId := some "a", editingText := " z " }).tasks.length = 2 :=
  (saveEdit_frame_amended "a"
    { tasks := [{ id := "a", text := "x", created_at := "t" },
                { id := "b", text := "y", created_at := "u" }],
      input := "", editingId := some "a", editingText := " z " } (by decide)).1


end TodoApp
